import Mathlib

/-!
Verification of the option-set derivation and form logic of the
`tedi-design-system` table select filter and text field components.

The development shallowly embeds the TypeScript sources:

* `sanitizeRowValues`, `TableSelectFilter`'s option derivation and its
  formik `onSubmit`/`onReset` handlers, from
  `table-select-filter.tsx`;
* the `isInvalid` / `isValid` flags of `TextField` from `textfield.tsx`.

Modelling choices, recorded once here:

* A raw row value (TypeScript `unknown`, observed scalar types) is a
  string, a number, a boolean, `null` or `undefined`.  Numbers are
  modelled as integers.
* `String.prototype.localeCompare` is modelled as plain lexicographic
  string comparison (the default-locale behaviour on the ASCII inputs
  exercised by the specification).
* `Array.prototype.sort` is modelled as a stable merge sort
  (`List.mergeSort`) on the comparator's "less or equal" relation.
  The comparator used by the source is not a consistent comparison
  function on mixed-type input, so ECMAScript leaves the sort result
  implementation-defined there; the stable merge sort is the canonical
  deterministic model.
* `Array.prototype.indexOf` / `filter` / `map` are the corresponding
  list functions.
-/

/-- A raw value scraped from a table row or supplied externally:
the scalar shapes observed by the spec (string, number, boolean,
null, undefined). -/
inductive RawValue where
  | str : String → RawValue
  | num : Int → RawValue
  | bool : Bool → RawValue
  | null : RawValue
  | undef : RawValue
  deriving DecidableEq

/-- JavaScript truthiness (`Boolean(v)`) on raw values: `null`,
`undefined`, the empty string, `0` and `false` are falsy, everything
else is truthy. -/
def isTruthy : RawValue → Bool
  | .str s => s ≠ ""
  | .num n => n ≠ 0
  | .bool b => b
  | .null => false
  | .undef => false

/-- Model of `a.localeCompare(b)`: lexicographic string comparison
returning a negative, zero or positive integer. -/
def localeCompare (a b : String) : Int :=
  if a < b then -1 else if b < a then 1 else 0

/-- The comparator passed to `sort` in `sanitizeRowValues`:
`a - b` on two numbers, `localeCompare` on two strings, `0` for every
other pairing of types. -/
def jsCompare : RawValue → RawValue → Int
  | .num a, .num b => a - b
  | .str a, .str b => localeCompare a b
  | _, _ => 0

/-- The "less or equal" relation induced by the comparator, used to
drive the stable merge sort model of `Array.prototype.sort`. -/
def jsLe (a b : RawValue) : Bool := jsCompare a b ≤ 0

/-- Model of `array.filter((item, index, array) => array.indexOf(item) === index)`:
keep the element at each position exactly when that position is the
first occurrence of the element. -/
def jsDedup (l : List RawValue) : List RawValue :=
  (l.enum.filter fun p => l.indexOf p.2 = p.1).map Prod.snd

/-- `sanitizeRowValues` from `table-select-filter.tsx`:
drop falsy values, drop non-first occurrences, then sort with the
type-aware comparator. -/
def sanitizeRowValues (l : List RawValue) : List RawValue :=
  (jsDedup (l.filter isTruthy)).mergeSort jsLe

/-- Model of JavaScript `String(v)` on raw values. -/
def jsString : RawValue → String
  | .str s => s
  | .num n => toString n
  | .bool b => if b then "true" else "false"
  | .null => "null"
  | .undef => "undefined"

/-- A display-ready option as built by `TableSelectFilter`:
`{ id: ..., label: String(i), value: String(i) }`. -/
structure FilterOption where
  id : String
  label : String
  value : String
  deriving DecidableEq

/-- The row-value resolution of `TableSelectFilter`:
`externalRowValues?.length ? sanitizeRowValues(externalRowValues) : sanitizeRowValues(internalRowValues)`.
`external = none` models an absent `meta.filterOptions`. -/
def resolveRowValues (external : Option (List String)) (internal : List RawValue) : List RawValue :=
  match external with
  | some ext => if ext.length ≠ 0 then sanitizeRowValues (ext.map .str) else sanitizeRowValues internal
  | none => sanitizeRowValues internal

/-- The option projection of `TableSelectFilter`:
`rowValues?.map((i, index) => ({ id: ..., label: String(i), value: String(i) }))`. -/
def deriveOptions (columnId : String) (external : Option (List String))
    (internal : List RawValue) : List FilterOption :=
  (resolveRowValues external internal).mapIdx fun index i =>
    { id := columnId ++ "-choice-" ++ toString index, label := jsString i, value := jsString i }

/-- A `TChoiceGroupValue` held by the formik field: a single string
(radio mode) or a list of strings (checkbox mode). -/
inductive ChoiceGroupValue where
  | single : String → ChoiceGroupValue
  | multi : List String → ChoiceGroupValue
  deriving DecidableEq

/-- JavaScript `v.length` for a `TChoiceGroupValue`. -/
def choiceLength : ChoiceGroupValue → Nat
  | .single s => s.length
  | .multi l => l.length

/-- What `column.setFilterValue` receives: either the selected
value(s) or the empty-string sentinel `''` meaning "no filter". -/
inductive FilterPayload where
  | val : ChoiceGroupValue → FilterPayload
  | emptyString : FilterPayload
  deriving DecidableEq

/-- The observable outcome of a form submission or reset: the payload
handed to `column.setFilterValue` and the value passed to `setOpen`. -/
structure FormOutcome where
  payload : FilterPayload
  openState : Bool
  deriving DecidableEq

/-- The formik `onSubmit` handler of `TableSelectFilter`:
`column?.setFilterValue(values[fieldName]?.length ? values[fieldName] : ''); setOpen?.(false)`.
The field value is `none` when the field is still `undefined`. -/
def onSubmit (v : Option ChoiceGroupValue) : FormOutcome :=
  match v with
  | some c => if choiceLength c ≠ 0 then ⟨.val c, false⟩ else ⟨.emptyString, false⟩
  | none => ⟨.emptyString, false⟩

/-- The formik `onReset` handler of `TableSelectFilter`:
`column?.setFilterValue(''); setOpen?.(false)`. -/
def onReset : FormOutcome := ⟨.emptyString, false⟩

/-- The `type` field of the `helper` prop (`FormHelperProps`), as far
as the `TextField` logic inspects it. -/
structure FormHelperLike where
  type : Option String
  deriving DecidableEq

/-- The `TextField` props that feed its validity flags. -/
structure TextFieldValidityProps where
  invalid : Option Bool
  helper : Option FormHelperLike
  deriving DecidableEq

/-- JavaScript truthiness of the optional boolean `invalid` prop. -/
def invalidTruthy : Option Bool → Bool
  | some b => b
  | none => false

/-- JavaScript `helper?.type === t`. -/
def helperTypeIs (h : Option FormHelperLike) (t : String) : Bool :=
  match h with
  | some hh => hh.type == some t
  | none => false

/-- The `isInvalid` memo of `TextField`: `invalid || helper?.type === 'error'`. -/
def isInvalid (p : TextFieldValidityProps) : Bool :=
  invalidTruthy p.invalid || helperTypeIs p.helper "error"

/-- The `isValid` memo of `TextField`: `!invalid && helper?.type === 'valid'`. -/
def isValid (p : TextFieldValidityProps) : Bool :=
  !invalidTruthy p.invalid && helperTypeIs p.helper "valid"

/-- The boolean lexicographic order on strings that drives the sort
of an all-string collection. -/
def strLeB (s t : String) : Bool := localeCompare s t ≤ 0

/-- The boolean numeric order that drives the sort of an all-number
collection. -/
def numLeB (a b : Int) : Bool := a ≤ b

/-- String key of a raw value (used to transport the sort of an
all-string collection to `String`). -/
def strKey : RawValue → String
  | .str s => s
  | _ => ""

/-- Numeric key of a raw value (used to transport the sort of an
all-number collection to `Int`). -/
def numKey : RawValue → Int
  | .num n => n
  | _ => 0

/-- Whether the comparator sees two numbers (its first branch). -/
def bothNum : RawValue → RawValue → Bool
  | .num _, .num _ => true
  | _, _ => false

/-- Whether the comparator sees two strings (its second branch). -/
def bothStr : RawValue → RawValue → Bool
  | .str _, .str _ => true
  | _, _ => false

/-! ### Helper lemmas about the comparator -/

/-- The modelled `localeCompare` is non-positive exactly for the
lexicographic order on strings. -/
theorem localeCompare_le_zero {s t : String} : localeCompare s t ≤ 0 ↔ s ≤ t := by
  unfold localeCompare
  split_ifs with h1 h2
  · exact ⟨fun _ => le_of_lt h1, fun _ => by norm_num⟩
  · exact ⟨fun h => by norm_num at h, fun h => absurd h (not_le.mpr h2)⟩
  · have hst : s = t := le_antisymm (not_lt.mp h2) (not_lt.mp h1)
    subst hst
    exact ⟨fun _ => le_refl s, fun _ => le_refl 0⟩

/-- On two numbers the comparator orders numerically. -/
theorem jsLe_num {a b : Int} : jsLe (.num a) (.num b) = true ↔ a ≤ b := by
  simp only [jsLe, jsCompare, decide_eq_true_eq]
  omega

/-- On two strings the comparator orders lexicographically. -/
theorem jsLe_str {s t : String} : jsLe (.str s) (.str t) = true ↔ s ≤ t := by
  simp only [jsLe, jsCompare, decide_eq_true_eq]
  exact localeCompare_le_zero

theorem strLeB_iff {s t : String} : strLeB s t = true ↔ s ≤ t := by
  simp only [strLeB, decide_eq_true_eq]
  exact localeCompare_le_zero

theorem strLeB_trans : ∀ a b c : String, strLeB a b = true → strLeB b c = true → strLeB a c = true :=
  fun _ _ _ hab hbc => strLeB_iff.mpr (le_trans (strLeB_iff.mp hab) (strLeB_iff.mp hbc))

theorem strLeB_total : ∀ a b : String, (strLeB a b || strLeB b a) = true := by
  intro a b
  rcases le_total a b with h | h
  · simp [strLeB_iff.mpr h]
  · simp [strLeB_iff.mpr h]

theorem numLeB_trans : ∀ a b c : Int, numLeB a b = true → numLeB b c = true → numLeB a c = true := by
  intro a b c hab hbc
  simp only [numLeB, decide_eq_true_eq] at *
  omega

theorem numLeB_total : ∀ a b : Int, (numLeB a b || numLeB b a) = true := by
  intro a b
  simp only [numLeB]
  rcases le_total a b with h | h
  · simp [h]
  · simp [h]

/-! ### Helper lemmas about the deduplication step -/

/-- The first-occurrence filter yields a subsequence of its input. -/
theorem jsDedup_sublist (l : List RawValue) : (jsDedup l).Sublist l := by
  unfold jsDedup
  have h := (List.filter_sublist (l := l.enum)
    (p := fun p => decide (l.indexOf p.2 = p.1))).map Prod.snd
  rwa [List.enum_map_snd] at h

/-- The enumeration of a list has no duplicate entries. -/
theorem enum_nodup (l : List RawValue) : l.enum.Nodup := by
  have h := List.nodup_range l.length
  rw [← List.enum_map_fst l] at h
  exact h.of_map _

/-- The first-occurrence filter removes all duplicates. -/
theorem jsDedup_nodup (l : List RawValue) : (jsDedup l).Nodup := by
  unfold jsDedup
  have hfil : (l.enum.filter fun p => decide (l.indexOf p.2 = p.1)).Nodup :=
    (enum_nodup l).filter _
  apply hfil.map_on
  intro x hx y hy hxy
  have hgx : l.indexOf x.2 = x.1 := by simpa using (List.mem_filter.mp hx).2
  have hgy : l.indexOf y.2 = y.1 := by simpa using (List.mem_filter.mp hy).2
  have hfst : x.1 = y.1 := by rw [← hgx, ← hgy, hxy]
  exact Prod.ext hfst hxy

/-- The first-occurrence filter keeps an element iff the input holds it. -/
theorem mem_jsDedup {l : List RawValue} {x : RawValue} : x ∈ jsDedup l ↔ x ∈ l := by
  constructor
  · intro hx
    exact (jsDedup_sublist l).mem hx
  · intro hx
    have hlt : l.indexOf x < l.length := List.indexOf_lt_length.mpr hx
    have hget : l[l.indexOf x] = x := List.getElem_indexOf hlt
    have henum : (l.indexOf x, x) ∈ l.enum := by
      rw [List.mk_mem_enum_iff_getElem?, List.getElem?_eq_getElem hlt, hget]
    unfold jsDedup
    exact List.mem_map.mpr ⟨(l.indexOf x, x), List.mem_filter.mpr ⟨henum, by simp⟩, rfl⟩

/-- On a duplicate-free list the first-occurrence filter is the identity. -/
theorem jsDedup_eq_self_of_nodup {l : List RawValue} (h : l.Nodup) : jsDedup l = l := by
  unfold jsDedup
  have hfil : l.enum.filter (fun p => decide (l.indexOf p.2 = p.1)) = l.enum := by
    apply List.filter_eq_self.mpr
    intro p hp
    have hp' : l[p.1]? = some p.2 := List.mem_enum_iff_getElem?.mp hp
    have hlt : p.1 < l.length := by
      by_contra hcon
      rw [List.getElem?_eq_none (le_of_not_lt hcon)] at hp'
      cases hp'
    have hg : l[p.1] = p.2 := by
      rw [List.getElem?_eq_getElem hlt] at hp'
      exact Option.some.inj hp'
    simp only [decide_eq_true_eq]
    rw [← hg]
    exact List.indexOf_getElem h p.1 hlt
  rw [hfil, List.enum_map_snd]

/-! ### Helper lemmas about the full sanitization pipeline -/

/-- Membership in the sanitized list: exactly the truthy input values. -/
theorem mem_sanitizeRowValues {l : List RawValue} {v : RawValue} :
    v ∈ sanitizeRowValues l ↔ v ∈ l ∧ isTruthy v = true := by
  unfold sanitizeRowValues
  rw [List.mem_mergeSort, mem_jsDedup, List.mem_filter]

/-- The sanitized list never holds duplicates. -/
theorem sanitizeRowValues_nodup (l : List RawValue) : (sanitizeRowValues l).Nodup := by
  unfold sanitizeRowValues
  exact (List.mergeSort_perm _ jsLe).symm.nodup (jsDedup_nodup _)

/-- Sorting a collection of string values with the row comparator
yields a list that is pairwise ordered by the comparator. -/
theorem pairwise_mergeSort_of_str {m : List RawValue}
    (h : ∀ v ∈ m, ∃ s, v = RawValue.str s) :
    (m.mergeSort jsLe).Pairwise (fun a b => jsLe a b = true) := by
  have hmap : (m.mergeSort jsLe).map strKey = (m.map strKey).mergeSort strLeB := by
    apply List.map_mergeSort
    intro a ha b hb
    obtain ⟨s, rfl⟩ := h a ha
    obtain ⟨t, rfl⟩ := h b hb
    simp [jsLe, jsCompare, strLeB, strKey]
  have hsorted : ((m.map strKey).mergeSort strLeB).Pairwise (fun a b => strLeB a b = true) :=
    List.sorted_mergeSort strLeB_trans strLeB_total _
  rw [← hmap] at hsorted
  have h2 := List.pairwise_map.mp hsorted
  refine h2.imp_of_mem ?_
  intro a b ha hb hab
  obtain ⟨s, rfl⟩ := h a (List.mem_mergeSort.mp ha)
  obtain ⟨t, rfl⟩ := h b (List.mem_mergeSort.mp hb)
  simpa [jsLe, jsCompare, strLeB, strKey] using hab

/-- Sorting a collection of numeric values with the row comparator
yields a list that is pairwise ordered by the comparator. -/
theorem pairwise_mergeSort_of_num {m : List RawValue}
    (h : ∀ v ∈ m, ∃ n, v = RawValue.num n) :
    (m.mergeSort jsLe).Pairwise (fun a b => jsLe a b = true) := by
  have hmap : (m.mergeSort jsLe).map numKey = (m.map numKey).mergeSort numLeB := by
    apply List.map_mergeSort
    intro a ha b hb
    obtain ⟨s, rfl⟩ := h a ha
    obtain ⟨t, rfl⟩ := h b hb
    simp only [jsLe, jsCompare, numLeB, numKey]
    exact decide_eq_decide.mpr (by omega)
  have hsorted : ((m.map numKey).mergeSort numLeB).Pairwise (fun a b => numLeB a b = true) :=
    List.sorted_mergeSort numLeB_trans numLeB_total _
  rw [← hmap] at hsorted
  have h2 := List.pairwise_map.mp hsorted
  refine h2.imp_of_mem ?_
  intro a b ha hb hab
  obtain ⟨s, rfl⟩ := h a (List.mem_mergeSort.mp ha)
  obtain ⟨t, rfl⟩ := h b (List.mem_mergeSort.mp hb)
  simp only [numLeB, numKey, decide_eq_true_eq] at hab
  simp only [jsLe, jsCompare, decide_eq_true_eq]
  omega

/-- The sanitized form of an all-string collection is pairwise ordered
by the comparator. -/
theorem sanitize_pairwise_of_str {l : List RawValue}
    (h : ∀ v ∈ l, ∃ s, v = RawValue.str s) :
    (sanitizeRowValues l).Pairwise (fun a b => jsLe a b = true) := by
  unfold sanitizeRowValues
  apply pairwise_mergeSort_of_str
  intro v hv
  exact h v (List.mem_filter.mp (mem_jsDedup.mp hv)).1

/-- The sanitized form of an all-number collection is pairwise ordered
by the comparator. -/
theorem sanitize_pairwise_of_num {l : List RawValue}
    (h : ∀ v ∈ l, ∃ n, v = RawValue.num n) :
    (sanitizeRowValues l).Pairwise (fun a b => jsLe a b = true) := by
  unfold sanitizeRowValues
  apply pairwise_mergeSort_of_num
  intro v hv
  exact h v (List.mem_filter.mp (mem_jsDedup.mp hv)).1

/-- A duplicate-free, all-truthy, comparator-sorted list is a fixed
point of the sanitization pipeline. -/
theorem sanitizeRowValues_eq_self {m : List RawValue}
    (hnd : m.Nodup) (htr : ∀ v ∈ m, isTruthy v = true)
    (hsort : m.Pairwise (fun a b => jsLe a b = true)) :
    sanitizeRowValues m = m := by
  unfold sanitizeRowValues
  rw [List.filter_eq_self.mpr htr, jsDedup_eq_self_of_nodup hnd,
    List.mergeSort_of_sorted hsort]

/-- Sanitization is idempotent on all-string collections. -/
theorem sanitize_idem_of_str {l : List RawValue}
    (h : ∀ v ∈ l, ∃ s, v = RawValue.str s) :
    sanitizeRowValues (sanitizeRowValues l) = sanitizeRowValues l :=
  sanitizeRowValues_eq_self (sanitizeRowValues_nodup l)
    (fun _ hv => (mem_sanitizeRowValues.mp hv).2)
    (sanitize_pairwise_of_str h)

/-- Sanitization is idempotent on all-number collections. -/
theorem sanitize_idem_of_num {l : List RawValue}
    (h : ∀ v ∈ l, ∃ n, v = RawValue.num n) :
    sanitizeRowValues (sanitizeRowValues l) = sanitizeRowValues l :=
  sanitizeRowValues_eq_self (sanitizeRowValues_nodup l)
    (fun _ hv => (mem_sanitizeRowValues.mp hv).2)
    (sanitize_pairwise_of_num h)

/-- The `value` fields of the derived options are the string forms of
the resolved row values, in order. -/
theorem deriveOptions_map_value (cid : String) (external : Option (List String))
    (internal : List RawValue) :
    (deriveOptions cid external internal).map FilterOption.value =
      (resolveRowValues external internal).map jsString := by
  unfold deriveOptions
  rw [List.mapIdx_eq_enum_map, List.map_map]
  have hcong : (FilterOption.value ∘ Function.uncurry fun index i =>
      { id := cid ++ "-choice-" ++ toString index, label := jsString i,
        value := jsString i : FilterOption }) = fun p : ℕ × RawValue => jsString p.2 := by
    funext p
    rfl
  rw [hcong]
  have h2 : (fun p : ℕ × RawValue => jsString p.2) =
      (jsString ∘ Prod.snd) := rfl
  rw [h2, ← List.map_map, List.enum_map_snd]

/-! ### Claim theorems -/

/-- C1: the option-set derivation's filter step keeps exactly the
truthy raw values (dropping null, undefined, empty string, 0 and
false), and no falsy value survives into the sanitized output. -/
theorem claim_C1 (l : List RawValue) (v : RawValue) :
    (v ∈ l.filter isTruthy ↔ v ∈ l ∧ isTruthy v = true) ∧
    (v ∈ sanitizeRowValues l → isTruthy v = true) := by
  constructor
  · exact List.mem_filter
  · intro hv
    exact (mem_sanitizeRowValues.mp hv).2

unseal List.mergeSort List.merge String.ltb in
theorem claim_C1_witness : isTruthy (RawValue.num 1) = true :=
  (claim_C1 [RawValue.num 0, RawValue.num 1] (RawValue.num 1)).2 (by decide)

/-- C2: the deduplication step keeps only the first occurrence of each
distinct raw value (it yields a duplicate-free subsequence with the
same members, comparing raw values), and when the surviving raw values
have pairwise distinct string forms the derived option values hold no
duplicates. -/
theorem claim_C2 (l : List RawValue) :
    (jsDedup l).Nodup ∧ (jsDedup l).Sublist l ∧ (∀ x : RawValue, x ∈ jsDedup l ↔ x ∈ l) ∧
    ((∀ a ∈ l, ∀ b ∈ l, jsString a = jsString b → a = b) →
      ((sanitizeRowValues l).map jsString).Nodup) := by
  refine ⟨jsDedup_nodup l, jsDedup_sublist l, fun _ => mem_jsDedup, fun hinj => ?_⟩
  apply (sanitizeRowValues_nodup l).map_on
  intro x hx y hy hxy
  exact hinj x (mem_sanitizeRowValues.mp hx).1 y (mem_sanitizeRowValues.mp hy).1 hxy

unseal List.mergeSort List.merge String.ltb in
theorem claim_C2_witness :
    ((sanitizeRowValues [RawValue.num 1, RawValue.num 1, RawValue.str "a"]).map jsString).Nodup :=
  (claim_C2 [RawValue.num 1, RawValue.num 1, RawValue.str "a"]).2.2.2 (by decide)

unseal List.mergeSort List.merge String.ltb in
/-- C3: when the comparator sees two numbers it orders them
numerically ascending, and two strings lexicographically ascending
(the model of locale-aware comparison); the sanitized form of an
all-number or all-string collection is pairwise ordered accordingly;
and the spec's two concrete examples come out as stated. -/
theorem claim_C3 (a b : Int) (s t : String) (cid : String) (l : List RawValue) :
    (jsLe (RawValue.num a) (RawValue.num b) = true ↔ a ≤ b) ∧
    (jsLe (RawValue.str s) (RawValue.str t) = true ↔ s ≤ t) ∧
    ((∀ v ∈ l, ∃ n, v = RawValue.num n) →
      (sanitizeRowValues l).Pairwise fun x y => jsLe x y = true) ∧
    ((∀ v ∈ l, ∃ u, v = RawValue.str u) →
      (sanitizeRowValues l).Pairwise fun x y => jsLe x y = true) ∧
    (deriveOptions cid none [RawValue.num 3, RawValue.num 1, RawValue.num 2]).map
      FilterOption.value = ["1", "2", "3"] ∧
    (deriveOptions cid none [RawValue.str "banana", RawValue.str "apple"]).map
      FilterOption.value = ["apple", "banana"] := by
  refine ⟨jsLe_num, jsLe_str, fun h => sanitize_pairwise_of_num h,
    fun h => sanitize_pairwise_of_str h, ?_, ?_⟩
  · rw [deriveOptions_map_value]
    decide
  · rw [deriveOptions_map_value]
    decide

theorem claim_C3_witness :
    (sanitizeRowValues [RawValue.num 2, RawValue.num 1]).Pairwise (fun x y => jsLe x y = true) :=
  (claim_C3 0 0 "" "" "" [RawValue.num 2, RawValue.num 1]).2.2.1 (by
    intro v hv
    rcases List.mem_cons.mp hv with rfl | hv2
    · exact ⟨2, rfl⟩
    · rcases List.mem_cons.mp hv2 with rfl | hv3
      · exact ⟨1, rfl⟩
      · cases hv3)

unseal List.mergeSort List.merge String.ltb in
/-- C4 counterexample: after sorting the mixed-type input
`[2, "a", "b", 1]` the two numbers remain in the order 2, 1, so it is
not true that every pair of same-type values ends up correctly
ordered relative to each other. -/
theorem claim_C4_counterexample :
    sanitizeRowValues [RawValue.num 2, RawValue.str "a", RawValue.str "b", RawValue.num 1] =
      [RawValue.num 2, RawValue.str "a", RawValue.str "b", RawValue.num 1] ∧
    ¬ (sanitizeRowValues [RawValue.num 2, RawValue.str "a", RawValue.str "b",
        RawValue.num 1]).Pairwise (fun x y => jsLe x y = true) := by
  constructor
  · decide
  · decide

unseal List.mergeSort List.merge String.ltb in
/-- C4 (amended): comparisons between values of differing types (not
both numeric and not both textual) are treated as equal by the
comparator, and for the specific input `[2, "a", 1]` the numbers 1
and 2 do end up in ascending order; but same-type values separated by
values of another type need not remain correctly ordered (see the
counterexample). -/
theorem claim_C4_amended (a b : RawValue)
    (h1 : bothNum a b = false) (h2 : bothStr a b = false) :
    jsCompare a b = 0 ∧ jsLe a b = true ∧ jsLe b a = true ∧
    sanitizeRowValues [RawValue.num 2, RawValue.str "a", RawValue.num 1] =
      [RawValue.num 1, RawValue.num 2, RawValue.str "a"] := by
  have hc : jsCompare a b = 0 := by
    cases a <;> cases b <;> simp_all [bothNum, bothStr, jsCompare]
  have hc2 : jsCompare b a = 0 := by
    cases a <;> cases b <;> simp_all [bothNum, bothStr, jsCompare]
  refine ⟨hc, ?_, ?_, by decide⟩
  · simp [jsLe, hc]
  · simp [jsLe, hc2]

theorem claim_C4_amended_witness :
    jsCompare (RawValue.bool true) (RawValue.num 1) = 0 :=
  (claim_C4_amended (RawValue.bool true) (RawValue.num 1) (by decide) (by decide)).1

/-- A non-empty external option list resolves to its own sanitized
form, whatever the internal row values are. -/
theorem resolveRowValues_external {ext : List String} (internal : List RawValue)
    (h : ext.length ≠ 0) :
    resolveRowValues (some ext) internal = sanitizeRowValues (ext.map RawValue.str) := by
  simp [resolveRowValues, h]

unseal List.mergeSort List.merge String.ltb in
/-- C5: a non-empty external `filterOptions` list is used alone (the
row-derived values are ignored entirely), and the external list
`["b","a","b"]` yields exactly the options `a` then `b`, each with
identifier `{column-id}-choice-{index}`. -/
theorem claim_C5 (cid : String) (ext : List String) (internal internal2 : List RawValue)
    (h : ext.length ≠ 0) :
    deriveOptions cid (some ext) internal = deriveOptions cid (some ext) internal2 ∧
    deriveOptions cid (some ["b", "a", "b"]) internal =
      [⟨cid ++ "-choice-" ++ "0", "a", "a"⟩, ⟨cid ++ "-choice-" ++ "1", "b", "b"⟩] := by
  constructor
  · unfold deriveOptions
    rw [resolveRowValues_external internal h, resolveRowValues_external internal2 h]
  · unfold deriveOptions
    rw [resolveRowValues_external internal (by decide)]
    have hs : sanitizeRowValues (["b", "a", "b"].map RawValue.str) =
        [RawValue.str "a", RawValue.str "b"] := by decide
    rw [hs]
    simp [List.mapIdx_cons, jsString]
    constructor
    · rfl
    · rfl

unseal List.mergeSort List.merge String.ltb in
theorem claim_C5_witness :
    deriveOptions "col" (some ["b", "a", "b"]) [RawValue.num 7] =
      [⟨"col" ++ "-choice-" ++ "0", "a", "a"⟩, ⟨"col" ++ "-choice-" ++ "1", "b", "b"⟩] :=
  (claim_C5 "col" ["b", "a", "b"] [RawValue.num 7] [] (by decide)).2

unseal List.mergeSort List.merge String.ltb in
/-- C6 counterexample: re-running the derivation on its own result
changes the mixed-type input `[2, "b", 3, "a", 1]` (the re-sort moves
elements across the type boundary), and re-deriving from the derived
value strings of `[2, 10]` flips their order, because `"10" < "2"`
lexicographically; so the derivation is not idempotent as claimed. -/
theorem claim_C6_counterexample :
    sanitizeRowValues (sanitizeRowValues
        [RawValue.num 2, RawValue.str "b", RawValue.num 3, RawValue.str "a", RawValue.num 1]) ≠
      sanitizeRowValues
        [RawValue.num 2, RawValue.str "b", RawValue.num 3, RawValue.str "a", RawValue.num 1] ∧
    deriveOptions "c" none
        (((deriveOptions "c" none [RawValue.num 2, RawValue.num 10]).map
          FilterOption.value).map RawValue.str) ≠
      deriveOptions "c" none [RawValue.num 2, RawValue.num 10] := by
  constructor
  · decide
  · decide

/-- C6 (amended): on inputs whose values all are strings the
derivation is idempotent — applying it twice equals applying it once,
and re-deriving from its own output's value strings reproduces the
same options; double application is likewise idempotent on inputs
whose values all are numbers.  On general mixed-type input neither
form of idempotence holds (see the counterexample). -/
theorem claim_C6_amended (cid : String) (l : List RawValue)
    (h : ∀ v ∈ l, ∃ s, v = RawValue.str s) :
    sanitizeRowValues (sanitizeRowValues l) = sanitizeRowValues l ∧
    deriveOptions cid none
        (((deriveOptions cid none l).map FilterOption.value).map RawValue.str) =
      deriveOptions cid none l ∧
    (∀ m : List RawValue, (∀ v ∈ m, ∃ n, v = RawValue.num n) →
      sanitizeRowValues (sanitizeRowValues m) = sanitizeRowValues m) := by
  refine ⟨sanitize_idem_of_str h, ?_, fun m hm => sanitize_idem_of_num hm⟩
  have hv : (deriveOptions cid none l).map FilterOption.value =
      (sanitizeRowValues l).map jsString := by
    rw [deriveOptions_map_value]
    rfl
  rw [hv, List.map_map]
  have hid : (sanitizeRowValues l).map (RawValue.str ∘ jsString) = sanitizeRowValues l := by
    have hcong : ∀ v ∈ sanitizeRowValues l, (RawValue.str ∘ jsString) v = id v := by
      intro v hv2
      obtain ⟨s, rfl⟩ := h v (mem_sanitizeRowValues.mp hv2).1
      rfl
    rw [List.map_congr_left hcong, List.map_id]
  rw [hid]
  unfold deriveOptions
  have hres : resolveRowValues none (sanitizeRowValues l) = resolveRowValues none l := by
    show sanitizeRowValues (sanitizeRowValues l) = sanitizeRowValues l
    exact sanitize_idem_of_str h
  rw [hres]

theorem claim_C6_amended_witness :
    sanitizeRowValues (sanitizeRowValues [RawValue.str "b", RawValue.str "a"]) =
      sanitizeRowValues [RawValue.str "b", RawValue.str "a"] :=
  (claim_C6_amended "col" [RawValue.str "b", RawValue.str "a"] (by
    intro v hv
    rcases List.mem_cons.mp hv with rfl | hv2
    · exact ⟨"b", rfl⟩
    · rcases List.mem_cons.mp hv2 with rfl | hv3
      · exact ⟨"a", rfl⟩
      · cases hv3)).1

/-- C7: the derived option at position `index` of the final sorted
sequence has identifier `{column-id}-choice-{index}` and has label and
value both equal to the string form of the raw value at that
position. -/
theorem claim_C7 (cid : String) (external : Option (List String)) (internal : List RawValue)
    (i : Nat) (h : i < (resolveRowValues external internal).length) :
    (deriveOptions cid external internal).length = (resolveRowValues external internal).length ∧
    (deriveOptions cid external internal)[i]? =
      some ⟨cid ++ "-choice-" ++ toString i,
        jsString ((resolveRowValues external internal).get ⟨i, h⟩),
        jsString ((resolveRowValues external internal).get ⟨i, h⟩)⟩ := by
  constructor
  · exact List.length_mapIdx
  · unfold deriveOptions
    rw [List.getElem?_mapIdx, List.getElem?_eq_getElem h]
    simp [List.get_eq_getElem]

unseal List.mergeSort List.merge String.ltb in
theorem claim_C7_witness :
    (deriveOptions "col" none [RawValue.num 1]).length =
      (resolveRowValues none [RawValue.num 1]).length :=
  (claim_C7 "col" none [RawValue.num 1] 0 (by decide)).1

/-- C8: the derivation is a total function (it is defined as one for
every input), and on the empty input — with or without an external
option list — it produces the empty option list rather than an
error. -/
theorem claim_C8 (cid : String) :
    sanitizeRowValues [] = [] ∧ deriveOptions cid none [] = [] ∧
    deriveOptions cid (some []) [] = [] := by
  have h0 : sanitizeRowValues [] = [] := by
    unfold sanitizeRowValues
    rw [show jsDedup (List.filter isTruthy []) = [] from rfl, List.mergeSort_nil]
  refine ⟨h0, ?_, ?_⟩
  · unfold deriveOptions
    have : resolveRowValues none ([] : List RawValue) = [] := h0
    rw [this]
    rfl
  · unfold deriveOptions
    have : resolveRowValues (some []) ([] : List RawValue) = [] := by
      simp [resolveRowValues, h0]
    rw [this]
    rfl

/-- C9: submission has exactly two unconditional outcomes — on commit
the filter sink receives the selected value(s) when the selection has
non-zero length and the empty-string sentinel otherwise, on reset it
receives the sentinel — and both pass `false` to the open-state
setter (closing the hosting surface); no third outcome exists. -/
theorem claim_C9 (v : Option ChoiceGroupValue) :
    (onSubmit v).openState = false ∧
    (∀ c, v = some c → choiceLength c ≠ 0 → (onSubmit v).payload = .val c) ∧
    (∀ c, v = some c → choiceLength c = 0 → (onSubmit v).payload = .emptyString) ∧
    (v = none → (onSubmit v).payload = .emptyString) ∧
    ((onSubmit v).payload = .emptyString ∨
      ∃ c, v = some c ∧ choiceLength c ≠ 0 ∧ (onSubmit v).payload = .val c) ∧
    onReset = ⟨.emptyString, false⟩ := by
  rcases v with _ | c
  · refine ⟨rfl, ?_, ?_, fun _ => rfl, Or.inl rfl, rfl⟩
    · intro c2 hc2 hne
      cases hc2
    · intro c2 hc2 hz
      cases hc2
  · by_cases hc : choiceLength c ≠ 0
    · refine ⟨?_, ?_, ?_, ?_, ?_, rfl⟩
      · simp [onSubmit, hc]
      · intro c2 heq hne
        cases heq
        simp [onSubmit, hc]
      · intro c2 heq hzero
        cases heq
        exact absurd hzero hc
      · intro hno
        cases hno
      · exact Or.inr ⟨c, rfl, hc, by simp [onSubmit, hc]⟩
    · refine ⟨?_, ?_, ?_, ?_, ?_, rfl⟩
      · simp [onSubmit, hc]
      · intro c2 heq hne
        cases heq
        exact absurd hne hc
      · intro c2 heq hzero
        cases heq
        simp [onSubmit, hc]
      · intro hno
        cases hno
      · exact Or.inl (by simp [onSubmit, hc])

theorem claim_C9_witness :
    (onSubmit (some (ChoiceGroupValue.single "x"))).payload =
      FilterPayload.val (ChoiceGroupValue.single "x") :=
  (claim_C9 (some (ChoiceGroupValue.single "x"))).2.1 (ChoiceGroupValue.single "x") rfl
    (by decide)

/-- C10: the `TextField` validity flags are mutually exclusive:
`isInvalid` holds exactly when the `invalid` prop is set (true) or the
helper's type is `'error'`; `isValid` holds exactly when the `invalid`
prop is not set (true) and the helper's type is `'valid'`; the two
flags are never both true. -/
theorem claim_C10 (p : TextFieldValidityProps) :
    (isInvalid p = true ↔ (p.invalid = some true ∨ helperTypeIs p.helper "error" = true)) ∧
    (isValid p = true ↔ (p.invalid ≠ some true ∧ helperTypeIs p.helper "valid" = true)) ∧
    ¬ (isInvalid p = true ∧ isValid p = true) := by
  obtain ⟨inv, hel⟩ := p
  refine ⟨?_, ?_, ?_⟩
  · cases inv with
    | none => simp [isInvalid, invalidTruthy]
    | some b => cases b <;> simp [isInvalid, invalidTruthy]
  · cases inv with
    | none => simp [isValid, invalidTruthy]
    | some b => cases b <;> simp [isValid, invalidTruthy]
  · rintro ⟨h1, h2⟩
    simp only [isValid, Bool.and_eq_true, Bool.not_eq_true'] at h2
    obtain ⟨hni, hv⟩ := h2
    simp only [isInvalid, Bool.or_eq_true] at h1
    rcases h1 with h1 | h1
    · rw [hni] at h1
      cases h1
    · cases hel with
      | none => cases h1
      | some hh =>
        simp only [helperTypeIs] at h1 hv
        have e1 : hh.type = some "error" := by simpa using h1
        have e2 : hh.type = some "valid" := by simpa using hv
        rw [e1] at e2
        exact absurd (Option.some.inj e2) (by decide)

theorem claim_C10_witness :
    isInvalid ⟨some true, none⟩ = true :=
  (claim_C10 ⟨some true, none⟩).1.mpr (Or.inl rfl)
